import Mathlib

/-!
Verification of the terminal cube renderer (src/main.cpp).

The C++ source is shallowly embedded as follows: `float` values are modelled
as exact rationals (`ℚ`); the C library `sqrt` (whose results are floats and
hence rationals) is modelled by an explicit parameter `rsqrt : ℚ → ℚ`, while
the ideal real-valued behaviour of the vector-math functions is obtained by
instantiating the generic definitions at `ℝ` with `Real.sqrt`; `static_cast<int>`
on a float is truncation toward zero (`ratTrunc`); the C integer division
`WIDTH/2` on `int` is `Int.tdiv`; the `std::vector` frame buffers are `List`s
and out-of-range `std::vector::set`-style writes cannot occur because the code
bounds-checks first.  `std::string_view` colour constants are the literal
escape strings; `string_view` equality compares contents, as does `String`
equality.  Terminal output of the diff pass is modelled as the list of emitted
cell updates.
-/

/-- `Vector3f` (src/main.cpp line 30), generic in the scalar type. -/
structure Vector3f (α : Type) where
  x : α
  y : α
  z : α
deriving DecidableEq

/-- The six cached trig values `{sinA, cosA, sinB, cosB, sinC, cosC}`
(`trigValues`, line 136/514). -/
structure TrigCache where
  sinA : ℚ
  cosA : ℚ
  sinB : ℚ
  cosB : ℚ
  sinC : ℚ
  cosC : ℚ
deriving DecidableEq

/-- Colours are ANSI escape strings (`std::string_view` contents). -/
abbrev Color := String

/-- `ANSI_escape_code::color::RESET` (line 68). -/
def RESET : Color := "\x1B[0m"

/-- `ANSI_escape_code::color::YELLOW` (line 62). -/
def YELLOW : Color := "\x1B[33m"

/-- `ANSI_escape_code::color::WHITE` (line 66). -/
def WHITE : Color := "\x1B[37m"

/-- `ANSI_escape_code::color::GREEN` (line 61). -/
def GREEN : Color := "\x1B[32m"

/-- `ANSI_escape_code::color::BLUE` (line 63). -/
def BLUE : Color := "\x1B[34m"

/-- `ANSI_escape_code::color::RED` (line 60). -/
def RED : Color := "\x1B[31m"

/-- `ANSI_escape_code::color::BOLD_RED` (line 70). -/
def BOLD_RED : Color := "\x1B[1;31m"

/-- `ANSI_escape_code::color::BLACK` (line 67). -/
def BLACK : Color := "\x1B[30m"

/-- `CUBE_SIZE = 1.0f` (line 126). -/
def CUBE_SIZE : ℚ := 1

/-- `GRID_SPACING = 0.04f` (line 128), the decimal literal as an exact rational. -/
def GRID_SPACING : ℚ := 4 / 100

/-- `GRID_LINE_COLOR = ANSI_escape_code::color::BLACK` (line 129). -/
def GRID_LINE_COLOR : Color := BLACK

/-- `K2 = 10.0f` (line 131). -/
def K2 : ℚ := 10

/-- The mutable global scalars of the program: `WIDTH`, `HEIGHT` (lines
117-118) and the derived `K1` (line 132) and `SPACING` (line 127). -/
structure Config where
  WIDTH : ℤ
  HEIGHT : ℤ
  K1 : ℚ
  SPACING : ℚ
deriving DecidableEq

/-- The three per-frame buffers written by `updateBuffers`: `buffer` ( glyphs),
`cbuffer` (colours) and `zbuffer` (inverse depths), lines 120-124. -/
structure Buffers where
  buffer : List Char
  cbuffer : List Color
  zbuffer : List ℚ
deriving DecidableEq

/-- All five frame buffers, including the previous-frame snapshots used for
diffing (lines 120-124). -/
structure FrameState where
  buffer : List Char
  buffer_prev : List Char
  cbuffer : List Color
  cbuffer_prev : List Color
  zbuffer : List ℚ
deriving DecidableEq

/-- The whole mutable global state touched by `updateDim` (line 451). -/
structure GlobalState where
  cfg : Config
  fs : FrameState
deriving DecidableEq

/-- One emitted cell update of the diff pass (line 419):
`printf("\x1b[%d;%dH%s%s%c", y+1, x+1, RESET, colour, char)`.
`row`/`col` are the 1-based cursor coordinates. -/
structure EmitCell where
  row : ℕ
  col : ℕ
  color : Color
  glyph : Char
deriving DecidableEq

/-- `static_cast<int>` applied to a float: truncation toward zero. -/
def ratTrunc (q : ℚ) : ℤ := if 0 ≤ q then ⌊q⌋ else ⌈q⌉

/-- `getVectorMag` (lines 149-155), generic in the scalar type; `sqrtF` is the
square-root function of that type. -/
def getVectorMag {α : Type} [LinearOrderedField α] (sqrtF : α → α) (vec : Vector3f α) : α :=
  sqrtF (vec.x * vec.x + vec.y * vec.y + vec.z * vec.z)

/-- `normVector` (lines 157-170): compute `oomag = 1/mag` and rescale only
when `mag > 0`, otherwise return the vector unchanged. -/
def normVector {α : Type} [LinearOrderedField α] (sqrtF : α → α) (vec : Vector3f α) : Vector3f α :=
  let mag := getVectorMag sqrtF vec
  let oomag := 1 / mag
  if 0 < mag then ⟨vec.x * oomag, vec.y * oomag, vec.z * oomag⟩ else vec

/-- The fused rotation matrix applied to a point `(px, py, pz)`; these are the
coefficient rows of lines 177-179 (where the point is `(j, i, k)`) and of the
surface-normal rotations (lines 215-226, where the point is `(n.x, n.y, n.z)`). -/
def rotatePoint (tv : TrigCache) (px py pz : ℚ) : Vector3f ℚ :=
  ⟨tv.cosA * tv.cosB * px + (tv.cosA * tv.sinB * tv.sinC - tv.sinA * tv.cosC) * py
      + (tv.cosA * tv.sinB * tv.cosC + tv.sinA * tv.sinC) * pz,
    tv.sinA * tv.cosB * px + (tv.sinA * tv.sinB * tv.sinC + tv.cosA * tv.cosC) * py
      + (tv.sinA * tv.sinB * tv.cosC - tv.cosA * tv.sinC) * pz,
    -px * tv.sinB + py * tv.cosB * tv.sinC + pz * tv.cosB * tv.cosC⟩

/-- `ooz` ("one over z", line 181): the reciprocal of the rotated `z` after the
camera translation by `K2` (line 179). -/
def oozOf (tv : TrigCache) (i j k : ℚ) : ℚ :=
  1 / ((rotatePoint tv j i k).z + K2)

/-- `xp` (line 183): `static_cast<int>((WIDTH/2) + (K1*ooz*x))`; `WIDTH/2` is C
integer division. -/
def screenXp (cfg : Config) (tv : TrigCache) (i j k : ℚ) : ℤ :=
  ratTrunc ((Int.tdiv cfg.WIDTH 2 : ℤ) + cfg.K1 * oozOf tv i j k * (rotatePoint tv j i k).x)

/-- `yp` (line 184): `static_cast<int>((HEIGHT/2) - (K1*ooz*y))`. -/
def screenYp (cfg : Config) (tv : TrigCache) (i j k : ℚ) : ℤ :=
  ratTrunc ((Int.tdiv cfg.HEIGHT 2 : ℤ) - cfg.K1 * oozOf tv i j k * (rotatePoint tv j i k).y)

/-- `index = xp + yp * WIDTH` (line 186). -/
def cellIndex (cfg : Config) (tv : TrigCache) (i j k : ℚ) : ℤ :=
  screenXp cfg tv i j k + screenYp cfg tv i j k * cfg.WIDTH

/-- The 12-glyph luminance ramp `".,-~:;=!*#$@"` (line 202). -/
def asciiRamp : String := ".,-~:;=!*#$@"

/-- The ramp index chosen on a write (lines 197 and 202):
`luminance > 0 ? (int)(luminance * 11) : 0`. -/
def glyphIndex (luminance : ℚ) : ℕ :=
  if 0 < luminance then (ratTrunc (luminance * 11)).toNat else 0

/-- The glyph written on a successful depth-tested write (line 202). -/
def lumChar (luminance : ℚ) : Char :=
  asciiRamp.toList.getD (glyphIndex luminance) ' '

/-- `updateBuffers` (lines 172-205): rotate and project the model point
`(i, j, k)`, then, if the linear cell index is within bounds and the new `ooz`
exceeds the stored depth, write glyph, colour and depth. -/
def updateBuffers (cfg : Config) (i j k : ℚ) (tv : TrigCache) (st : Buffers)
    (color : Color) (luminance : ℚ) : Buffers :=
  let ooz := oozOf tv i j k
  let index := cellIndex cfg tv i j k
  if 0 ≤ index ∧ index < (st.buffer.length : ℤ) then
    if st.zbuffer.getD index.toNat 0 < ooz then
      { buffer := st.buffer.set index.toNat (lumChar luminance)
        cbuffer := st.cbuffer.set index.toNat color
        zbuffer := st.zbuffer.set index.toNat ooz }
    else st
  else st

/-- The per-point colour selection shared by the three face-pair renderers
(lines 239-257, 300-318, 361-379): the colour pair is forced to
`GRID_LINE_COLOR` when either swept coordinate (`a` is tested first, then `b`)
lies strictly within `GRID_SPACING` of `-CUBE_SIZE/2 + CUBE_SIZE/3` or of
`CUBE_SIZE/2 - CUBE_SIZE/3`. -/
def faceColors (color1 color2 : Color) (a b : ℚ) : Color × Color :=
  if (-(CUBE_SIZE / 2) + CUBE_SIZE / 3) - GRID_SPACING < a
      ∧ a < (-(CUBE_SIZE / 2) + CUBE_SIZE / 3) + GRID_SPACING then
    (GRID_LINE_COLOR, GRID_LINE_COLOR)
  else if (CUBE_SIZE / 2 - CUBE_SIZE / 3) - GRID_SPACING < a
      ∧ a < (CUBE_SIZE / 2 - CUBE_SIZE / 3) + GRID_SPACING then
    (GRID_LINE_COLOR, GRID_LINE_COLOR)
  else if (-(CUBE_SIZE / 2) + CUBE_SIZE / 3) - GRID_SPACING < b
      ∧ b < (-(CUBE_SIZE / 2) + CUBE_SIZE / 3) + GRID_SPACING then
    (GRID_LINE_COLOR, GRID_LINE_COLOR)
  else if (CUBE_SIZE / 2 - CUBE_SIZE / 3) - GRID_SPACING < b
      ∧ b < (CUBE_SIZE / 2 - CUBE_SIZE / 3) + GRID_SPACING then
    (GRID_LINE_COLOR, GRID_LINE_COLOR)
  else (color1, color2)

/-- Number of iterations of the loop `for (float x = lo; x <= hi; x += step)`
over exact rationals: the values visited are `lo + t*step` for `t = 0, 1, ...`
while `lo + t*step ≤ hi`. -/
def sampleCount (lo hi step : ℚ) : ℕ :=
  if 0 < step ∧ lo ≤ hi then (⌊(hi - lo) / step⌋).toNat + 1 else 0

/-- The exact sequence of loop values of `for (float x = lo; x <= hi; x += step)`
(over `ℚ` the repeated additions are exact, so the values are `lo + t*step`). -/
def sampleCoords (lo hi step : ℚ) : List ℚ :=
  (List.range (sampleCount lo hi step)).map (fun t : ℕ => lo + (t : ℚ) * step)

/-- `renderCubeAxis_A` (lines 207-266): the `z = ±CUBE_SIZE/2` face pair.
`light` is the global `rotatedLightSource`; the luminances are the dot products
of the normalized rotated face normals with it (lines 229-230). -/
def renderCubeAxis_A (rsqrt : ℚ → ℚ) (cfg : Config) (tv : TrigCache)
    (light : Vector3f ℚ) (st : Buffers) (color1 color2 : Color) : Buffers :=
  let nF := normVector rsqrt (rotatePoint tv 0 0 CUBE_SIZE)
  let nB := normVector rsqrt (rotatePoint tv 0 0 (-CUBE_SIZE))
  let luminance_front := nF.x * light.x + nF.y * light.y + nF.z * light.z
  let luminance_back := nB.x * light.x + nB.y * light.y + nB.z * light.z
  let k := CUBE_SIZE / 2
  (sampleCoords (-(CUBE_SIZE / 2)) (CUBE_SIZE / 2) cfg.SPACING).foldl (fun st i =>
    (sampleCoords (-(CUBE_SIZE / 2)) (CUBE_SIZE / 2) cfg.SPACING).foldl (fun st j =>
      let cc := faceColors color1 color2 i j
      updateBuffers cfg i j (-k) tv
        (updateBuffers cfg i j k tv st cc.1 luminance_front) cc.2 luminance_back) st) st

/-- `renderCubeAxis_B` (lines 268-327): the `y = ±CUBE_SIZE/2` face pair;
outer loop `j`, inner loop `k`, band test on `(j, k)`. -/
def renderCubeAxis_B (rsqrt : ℚ → ℚ) (cfg : Config) (tv : TrigCache)
    (light : Vector3f ℚ) (st : Buffers) (color1 color2 : Color) : Buffers :=
  let nF := normVector rsqrt (rotatePoint tv 0 CUBE_SIZE 0)
  let nB := normVector rsqrt (rotatePoint tv 0 (-CUBE_SIZE) 0)
  let luminance_front := nF.x * light.x + nF.y * light.y + nF.z * light.z
  let luminance_back := nB.x * light.x + nB.y * light.y + nB.z * light.z
  let i := CUBE_SIZE / 2
  (sampleCoords (-(CUBE_SIZE / 2)) (CUBE_SIZE / 2) cfg.SPACING).foldl (fun st j =>
    (sampleCoords (-(CUBE_SIZE / 2)) (CUBE_SIZE / 2) cfg.SPACING).foldl (fun st k =>
      let cc := faceColors color1 color2 j k
      updateBuffers cfg (-i) j k tv
        (updateBuffers cfg i j k tv st cc.1 luminance_front) cc.2 luminance_back) st) st

/-- `renderCubeAxis_C` (lines 329-388): the `x = ±CUBE_SIZE/2` face pair;
outer loop `k`, inner loop `i`, band test on `(k, i)`. -/
def renderCubeAxis_C (rsqrt : ℚ → ℚ) (cfg : Config) (tv : TrigCache)
    (light : Vector3f ℚ) (st : Buffers) (color1 color2 : Color) : Buffers :=
  let nF := normVector rsqrt (rotatePoint tv CUBE_SIZE 0 0)
  let nB := normVector rsqrt (rotatePoint tv (-CUBE_SIZE) 0 0)
  let luminance_front := nF.x * light.x + nF.y * light.y + nF.z * light.z
  let luminance_back := nB.x * light.x + nB.y * light.y + nB.z * light.z
  let j := CUBE_SIZE / 2
  (sampleCoords (-(CUBE_SIZE / 2)) (CUBE_SIZE / 2) cfg.SPACING).foldl (fun st k =>
    (sampleCoords (-(CUBE_SIZE / 2)) (CUBE_SIZE / 2) cfg.SPACING).foldl (fun st i =>
      let cc := faceColors color1 color2 k i
      updateBuffers cfg i (-j) k tv
        (updateBuffers cfg i j k tv st cc.1 luminance_front) cc.2 luminance_back) st) st

/-- The diff-emit pass of `renderFrame` (lines 404-420): for every cell index,
skip when both glyph and colour equal the previous-frame snapshot, otherwise
emit a cursor move to row `index / WIDTH + 1`, column `index % WIDTH + 1`
followed by the new colour and glyph. -/
def diffEmit (W : ℤ) (buf bufPrev : List Char) (cbuf cbufPrev : List Color) :
    List EmitCell :=
  (List.range buf.length).filterMap (fun index =>
    if buf.getD index ' ' = bufPrev.getD index ' '
        ∧ cbuf.getD index RESET = cbufPrev.getD index RESET then
      none
    else
      some ⟨index / W.toNat + 1, index % W.toNat + 1,
        cbuf.getD index RESET, buf.getD index ' '⟩)

/-- `renderFrame` (lines 390-421): snapshot the previous glyph/colour buffers,
clear the working buffers, rasterize the three face pairs with their fixed
colour schemes, and return the new state together with the emitted cell
updates of the diff pass. -/
def renderFrame (rsqrt : ℚ → ℚ) (cfg : Config) (tv : TrigCache)
    (light : Vector3f ℚ) (fs : FrameState) : FrameState × List EmitCell :=
  let bufferPrev := fs.buffer
  let cbufferPrev := fs.cbuffer
  let cleared : Buffers :=
    ⟨fs.buffer.map (fun _ => ' '), fs.cbuffer.map (fun _ => RESET),
      fs.zbuffer.map (fun _ => 0)⟩
  let st1 := renderCubeAxis_A rsqrt cfg tv light cleared YELLOW WHITE
  let st2 := renderCubeAxis_B rsqrt cfg tv light st1 GREEN BLUE
  let st3 := renderCubeAxis_C rsqrt cfg tv light st2 BOLD_RED RED
  (⟨st3.buffer, bufferPrev, st3.cbuffer, cbufferPrev, st3.zbuffer⟩,
    diffEmit cfg.WIDTH st3.buffer bufferPrev st3.cbuffer cbufferPrev)

/-- `clearBuffers` (lines 423-429): `std::fill` of all five buffers. -/
def clearBuffers (fs : FrameState) : FrameState :=
  ⟨fs.buffer.map (fun _ => ' '), fs.buffer_prev.map (fun _ => ' '),
    fs.cbuffer.map (fun _ => RESET), fs.cbuffer_prev.map (fun _ => RESET),
    fs.zbuffer.map (fun _ => 0)⟩

/-- `std::vector::resize`: keep the first `n` elements, value-initialize the
rest (`'\0'` for `char`, the empty view for `string_view`, `0` for `float`). -/
def resizeList {α : Type} (l : List α) (n : ℕ) (dflt : α) : List α :=
  l.take n ++ List.replicate (n - l.length) dflt

/-- `resizeBuffers` (lines 431-437): resize all five buffers to `WIDTH*HEIGHT`. -/
def resizeBuffers (W H : ℤ) (fs : FrameState) : FrameState :=
  ⟨resizeList fs.buffer (W * H).toNat (Char.ofNat 0),
    resizeList fs.buffer_prev (W * H).toNat (Char.ofNat 0),
    resizeList fs.cbuffer (W * H).toNat "",
    resizeList fs.cbuffer_prev (W * H).toNat "",
    resizeList fs.zbuffer (W * H).toNat 0⟩

/-- `K1 = (WIDTH * K2 * 3) / (8 * (sqrt(3)*CUBE_SIZE))` (lines 132 and 457);
`sqrt3` is the float value the program computes for `sqrt(3)`. -/
def computeK1 (sqrt3 : ℚ) (W : ℤ) : ℚ :=
  ((W : ℚ) * K2 * 3) / (8 * (sqrt3 * CUBE_SIZE))

/-- `updateDim` (lines 451-464): when both reported dimensions are nonzero,
install them, recompute `K1` and `SPACING` from the new `WIDTH`, resize and
clear all buffers (the full-screen erase of line 462 affects only the
terminal, not the modelled state). -/
def updateDim (rsqrt : ℚ → ℚ) (termW termH : ℤ) (g : GlobalState) : GlobalState :=
  if termW ≠ 0 ∧ termH ≠ 0 then
    { cfg := { WIDTH := termW, HEIGHT := termH,
               K1 := computeK1 (rsqrt 3) termW,
               SPACING := 3 / (termW : ℚ) },
      fs := clearBuffers (resizeBuffers termW termH g.fs) }
  else g

/-! ### Helper lemmas about list access -/

theorem getD_set_self {α : Type} (l : List α) (n : ℕ) (a d : α) (h : n < l.length) :
    (l.set n a).getD n d = a := by
  simp [List.getD_eq_getElem?_getD, List.getElem?_set_self h]

theorem getD_set_ne {α : Type} (l : List α) (m n : ℕ) (a d : α) (h : m ≠ n) :
    (l.set m a).getD n d = l.getD n d := by
  simp [List.getD_eq_getElem?_getD, List.getElem?_set_ne h]

theorem getD_replicate {α : Type} (n m : ℕ) (a d : α) (h : m < n) :
    (List.replicate n a).getD m d = a := by
  simp [List.getD_eq_getElem?_getD, List.getElem?_replicate, h]

/-! ### Characterizations of `updateBuffers` -/

/-- When the projected index is in bounds and the depth test passes,
`updateBuffers` writes glyph, colour and depth at that index. -/
theorem updateBuffers_write (cfg : Config) (tv : TrigCache) (i j k : ℚ) (st : Buffers)
    (col : Color) (lum : ℚ) (n : ℕ) (hidx : cellIndex cfg tv i j k = (n : ℤ))
    (hn : n < st.buffer.length) (hz : st.zbuffer.getD n 0 < oozOf tv i j k) :
    updateBuffers cfg i j k tv st col lum =
      ⟨st.buffer.set n (lumChar lum), st.cbuffer.set n col,
        st.zbuffer.set n (oozOf tv i j k)⟩ := by
  simp only [updateBuffers]
  rw [hidx]
  rw [if_pos ⟨Int.natCast_nonneg n, by exact_mod_cast hn⟩]
  simp only [Int.toNat_natCast]
  rw [if_pos hz]

/-- When the projected index is in bounds but the depth test fails,
`updateBuffers` leaves the buffers unchanged. -/
theorem updateBuffers_skip (cfg : Config) (tv : TrigCache) (i j k : ℚ) (st : Buffers)
    (col : Color) (lum : ℚ) (n : ℕ) (hidx : cellIndex cfg tv i j k = (n : ℤ))
    (hn : n < st.buffer.length) (hz : ¬ st.zbuffer.getD n 0 < oozOf tv i j k) :
    updateBuffers cfg i j k tv st col lum = st := by
  simp only [updateBuffers]
  rw [hidx]
  rw [if_pos ⟨Int.natCast_nonneg n, by exact_mod_cast hn⟩]
  simp only [Int.toNat_natCast]
  rw [if_neg hz]

/-- When the projected index is out of bounds, `updateBuffers` leaves the
buffers unchanged. -/
theorem updateBuffers_oob (cfg : Config) (tv : TrigCache) (i j k : ℚ) (st : Buffers)
    (col : Color) (lum : ℚ)
    (h : cellIndex cfg tv i j k < 0 ∨ (st.buffer.length : ℤ) ≤ cellIndex cfg tv i j k) :
    updateBuffers cfg i j k tv st col lum = st := by
  simp only [updateBuffers]
  rw [if_neg]
  rintro ⟨h0, h1⟩
  rcases h with h | h
  · exact absurd h0 (not_le.mpr h)
  · exact absurd h1 (not_lt.mpr h)

/-- A cell other than the projected one is never touched by `updateBuffers`. -/
theorem updateBuffers_getD_preserve (cfg : Config) (tv : TrigCache) (i j k : ℚ)
    (st : Buffers) (col : Color) (lum : ℚ) (n : ℕ) (dc : Char) (dcol : Color) (dz : ℚ)
    (h : cellIndex cfg tv i j k ≠ (n : ℤ)) :
    (updateBuffers cfg i j k tv st col lum).buffer.getD n dc = st.buffer.getD n dc
    ∧ (updateBuffers cfg i j k tv st col lum).cbuffer.getD n dcol = st.cbuffer.getD n dcol
    ∧ (updateBuffers cfg i j k tv st col lum).zbuffer.getD n dz = st.zbuffer.getD n dz := by
  simp only [updateBuffers]
  split_ifs with hin hz
  · have hne : (cellIndex cfg tv i j k).toNat ≠ n := by
      intro hEq
      exact h (by rw [← hEq, Int.toNat_of_nonneg hin.1])
    exact ⟨getD_set_ne _ _ _ _ _ hne, getD_set_ne _ _ _ _ _ hne, getD_set_ne _ _ _ _ _ hne⟩
  · exact ⟨rfl, rfl, rfl⟩
  · exact ⟨rfl, rfl, rfl⟩

/-- The lengths of the three buffers written by `updateBuffers`. -/
def bufDims (st : Buffers) : ℕ × ℕ × ℕ :=
  (st.buffer.length, st.cbuffer.length, st.zbuffer.length)

theorem updateBuffers_dims (cfg : Config) (tv : TrigCache) (i j k : ℚ) (st : Buffers)
    (col : Color) (lum : ℚ) :
    bufDims (updateBuffers cfg i j k tv st col lum) = bufDims st := by
  simp only [updateBuffers, bufDims]
  split_ifs <;> simp

/-- Invariant preservation along a `List.foldl`. -/
theorem foldl_invariant {σ β : Type} {P : σ → Prop} (f : σ → β → σ) (l : List β)
    (hf : ∀ st b, b ∈ l → P st → P (f st b)) (st : σ) (hst : P st) :
    P (l.foldl f st) := by
  induction l generalizing st with
  | nil => exact hst
  | cons x xs ih =>
    exact ih (fun st b hb => hf st b (List.mem_cons_of_mem _ hb)) _
      (hf st x (List.mem_cons_self _ _) hst)

/-! ### Claims C7, C1, C10, C2 -/

/-- C7: a call to `updateBuffers` whose computed linear cell index
`xp + yp*WIDTH` is negative or at least the buffer length leaves the
character, colour and depth buffers entirely unchanged; the function is total,
so no error is reported and the point simply does not appear. -/
theorem out_of_bounds_dropped (cfg : Config) (tv : TrigCache) (i j k : ℚ)
    (st : Buffers) (col : Color) (lum : ℚ)
    (h : cellIndex cfg tv i j k < 0 ∨ (st.buffer.length : ℤ) ≤ cellIndex cfg tv i j k) :
    updateBuffers cfg i j k tv st col lum = st :=
  updateBuffers_oob cfg tv i j k st col lum h

/-- Witness for C7: with WIDTH = HEIGHT = 4, K1 = 1 and the identity trig
cache, the point (0, 100, 0) projects to linear index 20 ≥ 16, and the write
is silently dropped. -/
theorem out_of_bounds_dropped_witness :
    ((16 : ℤ) ≤ cellIndex ⟨4, 4, 1, 3/4⟩ ⟨0, 1, 0, 1, 0, 1⟩ 0 100 0)
    ∧ updateBuffers ⟨4, 4, 1, 3/4⟩ 0 100 0 ⟨0, 1, 0, 1, 0, 1⟩
        ⟨List.replicate 16 ' ', List.replicate 16 RESET, List.replicate 16 0⟩ RED 1 =
      ⟨List.replicate 16 ' ', List.replicate 16 RESET, List.replicate 16 0⟩ := by
  have hidx : cellIndex ⟨4, 4, 1, 3/4⟩ ⟨0, 1, 0, 1, 0, 1⟩ 0 100 0 = 20 := by
    norm_num [cellIndex, screenXp, screenYp, oozOf, rotatePoint, K2, ratTrunc, Int.tdiv]
  refine ⟨by rw [hidx]; norm_num, ?_⟩
  exact out_of_bounds_dropped _ _ _ _ _ _ _ _ (Or.inr (by rw [hidx]; norm_num))

/-- C1: two candidate writes to the same cell `n` via `updateBuffers`, with
inverse depths `ooz1 > ooz2` and `ooz2` above the cell's prior stored depth,
leave the cell holding the `ooz1` candidate's glyph, colour and depth in
either processing order; when the two depths are exactly equal, the value of
the earlier-processed candidate is kept. -/
theorem depth_test_correct (cfg : Config) (tv : TrigCache) (st : Buffers)
    (i1 j1 k1 i2 j2 k2 : ℚ) (col1 col2 : Color) (l1 l2 : ℚ) (n : ℕ)
    (hlz : st.zbuffer.length = st.buffer.length)
    (hlc : st.cbuffer.length = st.buffer.length)
    (hx1 : cellIndex cfg tv i1 j1 k1 = (n : ℤ))
    (hx2 : cellIndex cfg tv i2 j2 k2 = (n : ℤ))
    (hn : n < st.buffer.length)
    (hprior : st.zbuffer.getD n 0 < oozOf tv i2 j2 k2) :
    (oozOf tv i2 j2 k2 < oozOf tv i1 j1 k1 →
      ((updateBuffers cfg i2 j2 k2 tv (updateBuffers cfg i1 j1 k1 tv st col1 l1) col2 l2).buffer.getD n ' ' = lumChar l1
        ∧ (updateBuffers cfg i2 j2 k2 tv (updateBuffers cfg i1 j1 k1 tv st col1 l1) col2 l2).cbuffer.getD n RESET = col1
        ∧ (updateBuffers cfg i2 j2 k2 tv (updateBuffers cfg i1 j1 k1 tv st col1 l1) col2 l2).zbuffer.getD n 0 = oozOf tv i1 j1 k1)
      ∧ ((updateBuffers cfg i1 j1 k1 tv (updateBuffers cfg i2 j2 k2 tv st col2 l2) col1 l1).buffer.getD n ' ' = lumChar l1
        ∧ (updateBuffers cfg i1 j1 k1 tv (updateBuffers cfg i2 j2 k2 tv st col2 l2) col1 l1).cbuffer.getD n RESET = col1
        ∧ (updateBuffers cfg i1 j1 k1 tv (updateBuffers cfg i2 j2 k2 tv st col2 l2) col1 l1).zbuffer.getD n 0 = oozOf tv i1 j1 k1))
    ∧ (oozOf tv i1 j1 k1 = oozOf tv i2 j2 k2 →
      ((updateBuffers cfg i2 j2 k2 tv (updateBuffers cfg i1 j1 k1 tv st col1 l1) col2 l2).buffer.getD n ' ' = lumChar l1
        ∧ (updateBuffers cfg i2 j2 k2 tv (updateBuffers cfg i1 j1 k1 tv st col1 l1) col2 l2).cbuffer.getD n RESET = col1
        ∧ (updateBuffers cfg i2 j2 k2 tv (updateBuffers cfg i1 j1 k1 tv st col1 l1) col2 l2).zbuffer.getD n 0 = oozOf tv i1 j1 k1)) := by
  have hnz : n < st.zbuffer.length := hlz ▸ hn
  have hnc : n < st.cbuffer.length := hlc ▸ hn
  constructor
  · intro hlt
    have hp1 : st.zbuffer.getD n 0 < oozOf tv i1 j1 k1 := lt_trans hprior hlt
    constructor
    · -- order: the ooz1 candidate first, then the ooz2 candidate
      have e1 := updateBuffers_write cfg tv i1 j1 k1 st col1 l1 n hx1 hn hp1
      have hn' : n < (updateBuffers cfg i1 j1 k1 tv st col1 l1).buffer.length := by
        rw [e1]; simpa using hn
      have hz' : ¬ (updateBuffers cfg i1 j1 k1 tv st col1 l1).zbuffer.getD n 0 < oozOf tv i2 j2 k2 := by
        rw [e1]
        simp only
        rw [getD_set_self _ _ _ _ hnz]
        exact not_lt.mpr (le_of_lt hlt)
      rw [updateBuffers_skip cfg tv i2 j2 k2 _ col2 l2 n hx2 hn' hz', e1]
      exact ⟨getD_set_self _ _ _ _ hn, getD_set_self _ _ _ _ hnc, getD_set_self _ _ _ _ hnz⟩
    · -- order: the ooz2 candidate first, then the ooz1 candidate
      have e2 := updateBuffers_write cfg tv i2 j2 k2 st col2 l2 n hx2 hn hprior
      have hn' : n < (updateBuffers cfg i2 j2 k2 tv st col2 l2).buffer.length := by
        rw [e2]; simpa using hn
      have hz' : (updateBuffers cfg i2 j2 k2 tv st col2 l2).zbuffer.getD n 0 < oozOf tv i1 j1 k1 := by
        rw [e2]
        simp only
        rw [getD_set_self _ _ _ _ hnz]
        exact hlt
      rw [updateBuffers_write cfg tv i1 j1 k1 _ col1 l1 n hx1 hn' hz', e2]
      refine ⟨?_, ?_, ?_⟩
      · exact getD_set_self _ _ _ _ (by simpa using hn)
      · exact getD_set_self _ _ _ _ (by simpa using hnc)
      · exact getD_set_self _ _ _ _ (by simpa using hnz)
  · intro heq
    have hp1 : st.zbuffer.getD n 0 < oozOf tv i1 j1 k1 := heq ▸ hprior
    have e1 := updateBuffers_write cfg tv i1 j1 k1 st col1 l1 n hx1 hn hp1
    have hn' : n < (updateBuffers cfg i1 j1 k1 tv st col1 l1).buffer.length := by
      rw [e1]; simpa using hn
    have hz' : ¬ (updateBuffers cfg i1 j1 k1 tv st col1 l1).zbuffer.getD n 0 < oozOf tv i2 j2 k2 := by
      rw [e1]
      simp only
      rw [getD_set_self _ _ _ _ hnz]
      exact not_lt.mpr (le_of_eq heq.symm)
    rw [updateBuffers_skip cfg tv i2 j2 k2 _ col2 l2 n hx2 hn' hz', e1]
    exact ⟨getD_set_self _ _ _ _ hn, getD_set_self _ _ _ _ hnc, getD_set_self _ _ _ _ hnz⟩

/-- Witness for C1: with WIDTH = HEIGHT = 4, K1 = 1 and the identity trig
cache, the points (0,0,0) and (0,0,1) both project to cell 10 with inverse
depths 1/10 > 1/11; after both writes in either order the cell holds the
nearer candidate's values. -/
theorem depth_test_correct_witness :
    (updateBuffers ⟨4, 4, 1, 3/4⟩ 0 0 1 ⟨0, 1, 0, 1, 0, 1⟩
        (updateBuffers ⟨4, 4, 1, 3/4⟩ 0 0 0 ⟨0, 1, 0, 1, 0, 1⟩
          ⟨List.replicate 16 ' ', List.replicate 16 RESET, List.replicate 16 0⟩ RED 1) BLUE (1/2)).cbuffer.getD 10 RESET = RED
    ∧ (updateBuffers ⟨4, 4, 1, 3/4⟩ 0 0 0 ⟨0, 1, 0, 1, 0, 1⟩
        (updateBuffers ⟨4, 4, 1, 3/4⟩ 0 0 1 ⟨0, 1, 0, 1, 0, 1⟩
          ⟨List.replicate 16 ' ', List.replicate 16 RESET, List.replicate 16 0⟩ BLUE (1/2)) RED 1).cbuffer.getD 10 RESET = RED := by
  have hx1 : cellIndex ⟨4, 4, 1, 3/4⟩ ⟨0, 1, 0, 1, 0, 1⟩ 0 0 0 = (10 : ℕ) := by
    norm_num [cellIndex, screenXp, screenYp, oozOf, rotatePoint, K2, ratTrunc, Int.tdiv]
  have hx2 : cellIndex ⟨4, 4, 1, 3/4⟩ ⟨0, 1, 0, 1, 0, 1⟩ 0 0 1 = (10 : ℕ) := by
    norm_num [cellIndex, screenXp, screenYp, oozOf, rotatePoint, K2, ratTrunc, Int.tdiv]
  have hprior : (List.replicate 16 (0:ℚ)).getD 10 0 < oozOf ⟨0, 1, 0, 1, 0, 1⟩ 0 0 1 := by
    rw [getD_replicate 16 10 (0:ℚ) 0 (by norm_num)]
    norm_num [oozOf, rotatePoint, K2]
  have hlt : oozOf ⟨0, 1, 0, 1, 0, 1⟩ 0 0 1 < oozOf ⟨0, 1, 0, 1, 0, 1⟩ 0 0 0 := by
    norm_num [oozOf, rotatePoint, K2]
  have h := (depth_test_correct ⟨4, 4, 1, 3/4⟩ ⟨0, 1, 0, 1, 0, 1⟩
    ⟨List.replicate 16 ' ', List.replicate 16 RESET, List.replicate 16 0⟩
    0 0 0 0 0 1 RED BLUE 1 (1/2) 10 (by simp) (by simp) hx1 hx2 (by simp) hprior).1 hlt
  exact ⟨h.1.2.1, h.2.2.1⟩

/-- Every entry of a list of non-negative rationals read through `getD` with
default `0` is non-negative. -/
theorem getD_nonneg (l : List ℚ) (h : ∀ q ∈ l, 0 ≤ q) (m : ℕ) : 0 ≤ l.getD m 0 := by
  by_cases hm : m < l.length
  · rw [List.getD_eq_getElem?_getD, List.getElem?_eq_getElem hm]
    exact h _ (List.getElem_mem hm)
  · rw [List.getD_eq_getElem?_getD, List.getElem?_eq_none (le_of_not_lt hm)]
    simp

/-- C10: starting from a depth buffer whose stored values are all
non-negative (as after the per-frame clear to 0), every stored depth stays
non-negative after `updateBuffers`, each cell's stored depth is non-decreasing
across the call, and a point whose computed inverse depth `ooz` is at most 0
is never written to any buffer cell. -/
theorem zbuffer_monotone_invariant (cfg : Config) (tv : TrigCache) (i j k : ℚ)
    (st : Buffers) (col : Color) (lum : ℚ) :
    ((∀ q ∈ st.zbuffer, 0 ≤ q) →
      ∀ q ∈ (updateBuffers cfg i j k tv st col lum).zbuffer, 0 ≤ q)
    ∧ (∀ n : ℕ, st.zbuffer.getD n 0 ≤ (updateBuffers cfg i j k tv st col lum).zbuffer.getD n 0)
    ∧ ((∀ q ∈ st.zbuffer, 0 ≤ q) → oozOf tv i j k ≤ 0 →
      updateBuffers cfg i j k tv st col lum = st) := by
  refine ⟨?_, ?_, ?_⟩
  · intro h q hq
    simp only [updateBuffers] at hq
    split_ifs at hq with hin hz
    · rcases List.mem_or_eq_of_mem_set hq with hq' | rfl
      · exact h q hq'
      · exact le_of_lt (lt_of_le_of_lt (getD_nonneg st.zbuffer h _) hz)
    · exact h q hq
    · exact h q hq
  · intro n
    simp only [updateBuffers]
    split_ifs with hin hz
    · by_cases hnm : (cellIndex cfg tv i j k).toNat = n
      · subst hnm
        by_cases hlen : (cellIndex cfg tv i j k).toNat < st.zbuffer.length
        · simp only
          rw [getD_set_self _ _ _ _ hlen]
          exact le_of_lt hz
        · simp only
          rw [List.set_eq_of_length_le (le_of_not_lt hlen)]
      · simp only
        rw [getD_set_ne _ _ _ _ _ hnm]
    · exact le_refl _
    · exact le_refl _
  · intro h hooz
    simp only [updateBuffers]
    split_ifs with hin hz
    · exact absurd hz (not_lt.mpr (le_trans hooz (getD_nonneg st.zbuffer h _)))
    · rfl
    · rfl

/-- Witness for C10: with the identity trig cache the point (0,0,-20) lies
behind the camera plane (z + K2 = -10, ooz = -1/10 ≤ 0) and is not written. -/
theorem zbuffer_monotone_invariant_witness :
    oozOf ⟨0, 1, 0, 1, 0, 1⟩ 0 0 (-20) ≤ 0
    ∧ updateBuffers ⟨4, 4, 1, 3/4⟩ 0 0 (-20) ⟨0, 1, 0, 1, 0, 1⟩
        ⟨List.replicate 16 ' ', List.replicate 16 RESET, List.replicate 16 0⟩ RED 1 =
      ⟨List.replicate 16 ' ', List.replicate 16 RESET, List.replicate 16 0⟩ := by
  have hooz : oozOf ⟨0, 1, 0, 1, 0, 1⟩ 0 0 (-20) ≤ 0 := by
    norm_num [oozOf, rotatePoint, K2]
  refine ⟨hooz, ?_⟩
  exact (zbuffer_monotone_invariant ⟨4, 4, 1, 3/4⟩ ⟨0, 1, 0, 1, 0, 1⟩ 0 0 (-20)
    ⟨List.replicate 16 ' ', List.replicate 16 RESET, List.replicate 16 0⟩ RED 1).2.2
    (by intro q hq; rw [List.eq_of_mem_replicate hq]) hooz

/-- C2: the glyph written on a successful depth-tested write is taken from
the 12-glyph ramp at index `⌊luminance * 11⌋` when `luminance > 0` and at
index 0 (the faintest glyph `'.'`) when `luminance ≤ 0`, and the selected
index is non-decreasing in the luminance over `(0, 1]`. -/
theorem luminance_glyph_ramp :
    (∀ l : ℚ, 0 < l → glyphIndex l = (⌊l * 11⌋).toNat)
    ∧ (∀ l : ℚ, l ≤ 0 → lumChar l = '.')
    ∧ (∀ l1 l2 : ℚ, 0 < l1 → l1 ≤ l2 → l2 ≤ 1 → glyphIndex l1 ≤ glyphIndex l2)
    ∧ (∀ (cfg : Config) (tv : TrigCache) (i j k : ℚ) (st : Buffers) (col : Color)
        (l : ℚ) (n : ℕ),
        cellIndex cfg tv i j k = (n : ℤ) → n < st.buffer.length →
        st.zbuffer.getD n 0 < oozOf tv i j k →
        (updateBuffers cfg i j k tv st col l).buffer.getD n ' ' =
          asciiRamp.toList.getD (glyphIndex l) ' ') := by
  refine ⟨?_, ?_, ?_, ?_⟩
  · intro l hl
    rw [glyphIndex, if_pos hl, ratTrunc, if_pos (by positivity)]
  · intro l hl
    rw [lumChar, glyphIndex, if_neg (not_lt.mpr hl)]
    rfl
  · intro l1 l2 h1 h2 _
    have h2' : (0:ℚ) < l2 := lt_of_lt_of_le h1 h2
    rw [glyphIndex, if_pos h1, glyphIndex, if_pos h2', ratTrunc, ratTrunc,
      if_pos (by positivity), if_pos (by positivity)]
    exact Int.toNat_le_toNat
      (Int.floor_le_floor (mul_le_mul_of_nonneg_right h2 (by norm_num)))
  · intro cfg tv i j k st col l n hidx hn hz
    rw [updateBuffers_write cfg tv i j k st col l n hidx hn hz]
    simp only
    rw [getD_set_self _ _ _ _ hn]
    rfl

/-- Witness for C2: concrete luminances exercise the positive case, the
non-positive case and monotonicity; `glyphIndex (6/11) = 6` selects `'='`. -/
theorem luminance_glyph_ramp_witness :
    glyphIndex (6/11 : ℚ) = (⌊(6/11 : ℚ) * 11⌋).toNat
    ∧ lumChar (-1 : ℚ) = '.'
    ∧ glyphIndex (1/4 : ℚ) ≤ glyphIndex (3/4 : ℚ)
    ∧ lumChar (6/11 : ℚ) = '=' :=
  ⟨luminance_glyph_ramp.1 _ (by norm_num), luminance_glyph_ramp.2.1 _ (by norm_num),
    luminance_glyph_ramp.2.2.1 _ _ (by norm_num) (by norm_num) (by norm_num),
    by norm_num [lumChar, glyphIndex, ratTrunc, asciiRamp]; rfl⟩

/-- C5: over the real numbers, `normVector` rescales every vector of positive
magnitude to magnitude exactly 1 (the "within floating tolerance" of the spec
is exact in the real-number model), and leaves a vector of magnitude zero
unchanged — the guard `mag > 0` means no component is ever divided by the
zero magnitude. -/
theorem mag_scale (x y z c : ℝ) :
    getVectorMag Real.sqrt ⟨x * c, y * c, z * c⟩
      = Real.sqrt ((x * x + y * y + z * z) * (c * c)) := by
  rw [getVectorMag]
  congr 1
  ring

theorem normVector_correct (v : Vector3f ℝ) :
    (0 < getVectorMag Real.sqrt v →
      getVectorMag Real.sqrt (normVector Real.sqrt v) = 1)
    ∧ (getVectorMag Real.sqrt v = 0 → normVector Real.sqrt v = v) := by
  constructor
  · intro hpos
    have hs : 0 < v.x * v.x + v.y * v.y + v.z * v.z := Real.sqrt_pos.mp hpos
    have hm : getVectorMag Real.sqrt v = Real.sqrt (v.x * v.x + v.y * v.y + v.z * v.z) := rfl
    have key : (1 : ℝ) / Real.sqrt (v.x * v.x + v.y * v.y + v.z * v.z)
        * (1 / Real.sqrt (v.x * v.x + v.y * v.y + v.z * v.z))
        = 1 / (v.x * v.x + v.y * v.y + v.z * v.z) := by
      rw [div_mul_div_comm, one_mul, Real.mul_self_sqrt hs.le]
    rw [normVector, if_pos hpos]
    rw [mag_scale, hm, key, mul_one_div, div_self (ne_of_gt hs), Real.sqrt_one]
  · intro hzero
    rw [normVector, if_neg (by rw [hzero]; exact lt_irrefl 0)]

/-- Witness for C5: the vector (0, 3, 4) has magnitude 5 > 0 and normalizes
to a unit vector. -/
theorem normVector_correct_witness :
    0 < getVectorMag Real.sqrt (⟨0, 3, 4⟩ : Vector3f ℝ)
    ∧ getVectorMag Real.sqrt (normVector Real.sqrt (⟨0, 3, 4⟩ : Vector3f ℝ)) = 1 := by
  have hpos : 0 < getVectorMag Real.sqrt (⟨0, 3, 4⟩ : Vector3f ℝ) := by
    rw [getVectorMag]
    exact Real.sqrt_pos.mpr (by norm_num)
  exact ⟨hpos, (normVector_correct _).1 hpos⟩

/-- C6: whenever either swept coordinate of a rasterized face point lies
(strictly) within `GRID_SPACING` of a band centre — one-third or two-thirds of
the way across the face, i.e. `-CUBE_SIZE/2 + CUBE_SIZE/3` or
`CUBE_SIZE/2 - CUBE_SIZE/3` — both the front and the back colour passed to
`updateBuffers` are `GRID_LINE_COLOR`, and the glyph written by
`updateBuffers` never depends on the colour argument. -/
theorem grid_line_override (color1 color2 : Color) (a b : ℚ) :
    ((|a - (-(CUBE_SIZE / 2) + CUBE_SIZE / 3)| < GRID_SPACING
        ∨ |a - (CUBE_SIZE / 2 - CUBE_SIZE / 3)| < GRID_SPACING
        ∨ |b - (-(CUBE_SIZE / 2) + CUBE_SIZE / 3)| < GRID_SPACING
        ∨ |b - (CUBE_SIZE / 2 - CUBE_SIZE / 3)| < GRID_SPACING) →
      faceColors color1 color2 a b = (GRID_LINE_COLOR, GRID_LINE_COLOR))
    ∧ (∀ (cfg : Config) (tv : TrigCache) (i j k : ℚ) (st : Buffers)
        (cA cB : Color) (lum : ℚ),
        (updateBuffers cfg i j k tv st cA lum).buffer =
          (updateBuffers cfg i j k tv st cB lum).buffer) := by
  constructor
  · intro h
    rw [faceColors]
    have h1 := abs_sub_lt_iff (a := a) (b := -(CUBE_SIZE / 2) + CUBE_SIZE / 3) (c := GRID_SPACING)
    have h2 := abs_sub_lt_iff (a := a) (b := CUBE_SIZE / 2 - CUBE_SIZE / 3) (c := GRID_SPACING)
    have h3 := abs_sub_lt_iff (a := b) (b := -(CUBE_SIZE / 2) + CUBE_SIZE / 3) (c := GRID_SPACING)
    have h4 := abs_sub_lt_iff (a := b) (b := CUBE_SIZE / 2 - CUBE_SIZE / 3) (c := GRID_SPACING)
    split_ifs with c1 c2 c3 c4
    · rfl
    · rfl
    · rfl
    · rfl
    · exfalso
      rcases h with h | h | h | h
      · rcases h1.mp h with ⟨hu, hv⟩
        exact c1 ⟨by linarith, by linarith⟩
      · rcases h2.mp h with ⟨hu, hv⟩
        exact c2 ⟨by linarith, by linarith⟩
      · rcases h3.mp h with ⟨hu, hv⟩
        exact c3 ⟨by linarith, by linarith⟩
      · rcases h4.mp h with ⟨hu, hv⟩
        exact c4 ⟨by linarith, by linarith⟩
  · intro cfg tv i j k st cA cB lum
    simp only [updateBuffers]
    split_ifs <;> rfl

/-- Witness for C6: the coordinate `-1/6` is a band centre itself, so the
colour pair (YELLOW, WHITE) of face pair A is overridden to the grid colour. -/
theorem grid_line_override_witness :
    faceColors YELLOW WHITE (-1/6) 0 = (GRID_LINE_COLOR, GRID_LINE_COLOR) :=
  (grid_line_override YELLOW WHITE (-1/6) 0).1
    (Or.inl (by norm_num [CUBE_SIZE, GRID_SPACING]))

/-- C4: `updateBuffers` computes the rotated point via `rotatePoint`,
translates `z` by `K2 = 10`, takes `ooz = 1/z`, and truncates
`WIDTH/2 + K1*ooz*x` and `HEIGHT/2 - K1*ooz*y` toward zero (the halves being
C integer divisions of the global dimensions); `K1` is recomputed from a new
`WIDTH` as `WIDTH*K2*3 / (8*(sqrt(3)*CUBE_SIZE))` (`computeK1`, cf. the
`updateDim` claim).  `ratTrunc` is truncation toward zero: it agrees with
floor on non-negative inputs, with ceiling on negative ones, and never
increases the absolute value while staying within distance 1 of it. -/
theorem projection_formula (cfg : Config) (tv : TrigCache) (i j k : ℚ) :
    oozOf tv i j k = 1 / ((rotatePoint tv j i k).z + K2)
    ∧ K2 = 10
    ∧ screenXp cfg tv i j k
        = ratTrunc ((Int.tdiv cfg.WIDTH 2 : ℤ) + cfg.K1 * oozOf tv i j k * (rotatePoint tv j i k).x)
    ∧ screenYp cfg tv i j k
        = ratTrunc ((Int.tdiv cfg.HEIGHT 2 : ℤ) - cfg.K1 * oozOf tv i j k * (rotatePoint tv j i k).y)
    ∧ cellIndex cfg tv i j k = screenXp cfg tv i j k + screenYp cfg tv i j k * cfg.WIDTH
    ∧ (∀ (s : ℚ) (W : ℤ), computeK1 s W = ((W : ℚ) * K2 * 3) / (8 * (s * CUBE_SIZE)))
    ∧ (∀ q : ℚ, 0 ≤ q → ratTrunc q = ⌊q⌋)
    ∧ (∀ q : ℚ, q < 0 → ratTrunc q = ⌈q⌉)
    ∧ (∀ q : ℚ, |(ratTrunc q : ℚ)| ≤ |q| ∧ |q| - 1 < |(ratTrunc q : ℚ)|) := by
  refine ⟨rfl, rfl, rfl, rfl, rfl, fun s W => rfl, ?_, ?_, ?_⟩
  · intro q hq
    rw [ratTrunc, if_pos hq]
  · intro q hq
    rw [ratTrunc, if_neg (not_le.mpr hq)]
  · intro q
    by_cases hq : 0 ≤ q
    · rw [ratTrunc, if_pos hq]
      have h0 : (0 : ℚ) ≤ (⌊q⌋ : ℚ) := by
        exact_mod_cast Int.floor_nonneg.mpr hq
      rw [abs_of_nonneg h0, abs_of_nonneg hq]
      exact ⟨Int.floor_le q, Int.sub_one_lt_floor q⟩
    · push_neg at hq
      rw [ratTrunc, if_neg (not_le.mpr hq)]
      have hle : q ≤ (⌈q⌉ : ℚ) := Int.le_ceil q
      have hlt : (⌈q⌉ : ℚ) < q + 1 := Int.ceil_lt_add_one q
      have hcle : (⌈q⌉ : ℚ) ≤ 0 := by
        have : ⌈q⌉ ≤ (0 : ℤ) := Int.ceil_le.mpr (by exact_mod_cast le_of_lt hq)
        exact_mod_cast this
      rw [abs_of_nonpos hcle, abs_of_neg hq]
      constructor <;> linarith

/-! ### Diff-emit infrastructure -/

theorem diffEmit_self (W : ℤ) (b : List Char) (c : List Color) :
    diffEmit W b b c c = [] := by
  rw [diffEmit]
  exact List.filterMap_eq_nil_iff.mpr (fun a _ => if_pos ⟨rfl, rfl⟩)

/-- A natural number is determined by its quotient and remainder by `W`. -/
theorem divmod_eq (W m n : ℕ) (h1 : m / W = n / W) (h2 : m % W = n % W) : m = n := by
  calc m = W * (m / W) + m % W := (Nat.div_add_mod m W).symm
    _ = W * (n / W) + n % W := by rw [h1, h2]
    _ = n := Nat.div_add_mod n W

/-- Cell `n` is addressed by the diff pass exactly when its glyph or colour
changed from the snapshot. -/
theorem mem_diffEmit_iff (W : ℤ) (buf bufPrev : List Char) (cbuf cbufPrev : List Color)
    (n : ℕ) (hn : n < buf.length) :
    (∃ c ch, (⟨n / W.toNat + 1, n % W.toNat + 1, c, ch⟩ : EmitCell)
        ∈ diffEmit W buf bufPrev cbuf cbufPrev)
    ↔ ¬(buf.getD n ' ' = bufPrev.getD n ' '
        ∧ cbuf.getD n RESET = cbufPrev.getD n RESET) := by
  constructor
  · rintro ⟨c, ch, hmem⟩
    rw [diffEmit] at hmem
    rcases List.mem_filterMap.mp hmem with ⟨m, _, hfm⟩
    by_cases hcond : buf.getD m ' ' = bufPrev.getD m ' '
        ∧ cbuf.getD m RESET = cbufPrev.getD m RESET
    · rw [if_pos hcond] at hfm
      exact absurd hfm (by simp)
    · rw [if_neg hcond] at hfm
      have hinj := Option.some.inj hfm
      have hrow : m / W.toNat + 1 = n / W.toNat + 1 := congrArg EmitCell.row hinj
      have hcol : m % W.toNat + 1 = n % W.toNat + 1 := congrArg EmitCell.col hinj
      have hmn : m = n :=
        divmod_eq W.toNat m n (Nat.add_right_cancel hrow) (Nat.add_right_cancel hcol)
      exact hmn ▸ hcond
  · intro hcond
    refine ⟨cbuf.getD n RESET, buf.getD n ' ', ?_⟩
    rw [diffEmit]
    exact List.mem_filterMap.mpr ⟨n, List.mem_range.mpr hn, by rw [if_neg hcond]⟩

/-- A `filterMap` over `range L` whose function yields `some` at exactly one
index below `L` produces the singleton of that value. -/
theorem filterMap_range_singleton {β : Type} (f : ℕ → Option β) (v : β) :
    ∀ L n0 : ℕ, n0 < L → f n0 = some v → (∀ m, m < L → m ≠ n0 → f m = none) →
    (List.range L).filterMap f = [v] := by
  intro L
  induction L with
  | zero => exact fun n0 h _ _ => absurd h (Nat.not_lt_zero n0)
  | succ L ih =>
    intro n0 hn0 hv hnone
    rw [List.range_succ, List.filterMap_append]
    by_cases hL : n0 = L
    · subst hL
      have hpre : (List.range n0).filterMap f = [] :=
        List.filterMap_eq_nil_iff.mpr (fun m hm =>
          hnone m (lt_trans (List.mem_range.mp hm) (Nat.lt_succ_self n0))
            (Nat.ne_of_lt (List.mem_range.mp hm)))
      rw [hpre]
      simp [hv]
    · have hn0' : n0 < L := lt_of_le_of_ne (Nat.lt_succ_iff.mp hn0) hL
      rw [ih n0 hn0' hv (fun m hm hne => hnone m (lt_trans hm (Nat.lt_succ_self L)) hne)]
      have hfL : f L = none := hnone L (Nat.lt_succ_self L) (fun hEq => hL hEq.symm)
      simp [hfL]

/-- C3: in the diff-emit pass a cell is skipped exactly when both its glyph
and its colour equal the previous-frame snapshot; every changed cell is
emitted with its 1-based row `index / WIDTH + 1` and column
`index % WIDTH + 1`; and if exactly one cell's glyph changes (all other cells
and all colours unchanged), the emitted output is precisely the singleton
addressing that cell. -/
theorem diff_emit_correct (W : ℤ) (buf bufPrev : List Char) (cbuf cbufPrev : List Color) :
    (∀ n, n < buf.length →
      ((∃ c ch, (⟨n / W.toNat + 1, n % W.toNat + 1, c, ch⟩ : EmitCell)
          ∈ diffEmit W buf bufPrev cbuf cbufPrev)
        ↔ ¬(buf.getD n ' ' = bufPrev.getD n ' '
            ∧ cbuf.getD n RESET = cbufPrev.getD n RESET)))
    ∧ (∀ n0, n0 < buf.length →
        buf.getD n0 ' ' ≠ bufPrev.getD n0 ' ' →
        (∀ m, m < buf.length → m ≠ n0 → buf.getD m ' ' = bufPrev.getD m ' ') →
        (∀ m, m < buf.length → cbuf.getD m RESET = cbufPrev.getD m RESET) →
        diffEmit W buf bufPrev cbuf cbufPrev =
          [⟨n0 / W.toNat + 1, n0 % W.toNat + 1, cbuf.getD n0 RESET, buf.getD n0 ' '⟩]) := by
  constructor
  · exact fun n hn => mem_diffEmit_iff W buf bufPrev cbuf cbufPrev n hn
  · intro n0 hn0 hchar hrest hcols
    rw [diffEmit]
    apply filterMap_range_singleton _ _ _ n0 hn0
    · rw [if_neg]
      rintro ⟨hc, _⟩
      exact hchar hc
    · intro m hm hne
      rw [if_pos ⟨hrest m hm hne, hcols m hm⟩]

/-- Witness for C3: two 2×2 frames differing only in cell 0's glyph produce
exactly one emitted update, addressed to row 1, column 1. -/
theorem diff_emit_correct_witness :
    diffEmit 2 ['x', 'b', 'c', 'd'] ['a', 'b', 'c', 'd']
        (List.replicate 4 RESET) (List.replicate 4 RESET) =
      [⟨1, 1, RESET, 'x'⟩] := by
  have h := (diff_emit_correct 2 ['x', 'b', 'c', 'd'] ['a', 'b', 'c', 'd']
    (List.replicate 4 RESET) (List.replicate 4 RESET)).2 0
    (by decide) (by decide) (by decide) (by decide)
  exact h.trans (by decide)

/-! ### Buffer-length preservation through the rasterizer -/

theorem renderCubeAxis_A_dims (rsqrt : ℚ → ℚ) (cfg : Config) (tv : TrigCache)
    (light : Vector3f ℚ) (st : Buffers) (c1 c2 : Color) :
    bufDims (renderCubeAxis_A rsqrt cfg tv light st c1 c2) = bufDims st := by
  simp only [renderCubeAxis_A]
  refine foldl_invariant (P := fun s => bufDims s = bufDims st) _ _ ?_ _ rfl
  intro s i _ hs
  refine foldl_invariant (P := fun s => bufDims s = bufDims st) _ _ ?_ _ hs
  intro s' j _ hs'
  rw [updateBuffers_dims, updateBuffers_dims]
  exact hs'

theorem renderCubeAxis_B_dims (rsqrt : ℚ → ℚ) (cfg : Config) (tv : TrigCache)
    (light : Vector3f ℚ) (st : Buffers) (c1 c2 : Color) :
    bufDims (renderCubeAxis_B rsqrt cfg tv light st c1 c2) = bufDims st := by
  simp only [renderCubeAxis_B]
  refine foldl_invariant (P := fun s => bufDims s = bufDims st) _ _ ?_ _ rfl
  intro s j _ hs
  refine foldl_invariant (P := fun s => bufDims s = bufDims st) _ _ ?_ _ hs
  intro s' k _ hs'
  rw [updateBuffers_dims, updateBuffers_dims]
  exact hs'

theorem renderCubeAxis_C_dims (rsqrt : ℚ → ℚ) (cfg : Config) (tv : TrigCache)
    (light : Vector3f ℚ) (st : Buffers) (c1 c2 : Color) :
    bufDims (renderCubeAxis_C rsqrt cfg tv light st c1 c2) = bufDims st := by
  simp only [renderCubeAxis_C]
  refine foldl_invariant (P := fun s => bufDims s = bufDims st) _ _ ?_ _ rfl
  intro s k _ hs
  refine foldl_invariant (P := fun s => bufDims s = bufDims st) _ _ ?_ _ hs
  intro s' i _ hs'
  rw [updateBuffers_dims, updateBuffers_dims]
  exact hs'

/-- C9: for any fixed dimensions and a single fixed rotation state, rendering
a second frame immediately after a first one with no state change in between
emits zero cell updates: the populated buffers are a deterministic function of
the configuration and trig cache, so the second diff pass compares equal
buffers. -/
theorem render_idempotent (rsqrt : ℚ → ℚ) (cfg : Config) (tv : TrigCache)
    (light : Vector3f ℚ) (fs : FrameState) :
    (renderFrame rsqrt cfg tv light (renderFrame rsqrt cfg tv light fs).1).2 = [] := by
  simp only [renderFrame]
  rw [List.map_const', List.map_const', List.map_const']
  set A1 : Buffers :=
    ⟨List.replicate fs.buffer.length ' ', List.replicate fs.cbuffer.length RESET,
      List.replicate fs.zbuffer.length 0⟩ with hA1
  set P1 : Buffers :=
    renderCubeAxis_C rsqrt cfg tv light
      (renderCubeAxis_B rsqrt cfg tv light
        (renderCubeAxis_A rsqrt cfg tv light A1 YELLOW WHITE) GREEN BLUE) BOLD_RED RED
    with hP1
  have hd : bufDims P1 = bufDims A1 := by
    rw [hP1, renderCubeAxis_C_dims, renderCubeAxis_B_dims, renderCubeAxis_A_dims]
  have h1 : P1.buffer.length = fs.buffer.length := by
    have := congrArg Prod.fst hd
    simpa [bufDims, hA1] using this
  have h2 : P1.cbuffer.length = fs.cbuffer.length := by
    have := congrArg (fun p => p.2.1) hd
    simpa [bufDims, hA1] using this
  have h3 : P1.zbuffer.length = fs.zbuffer.length := by
    have := congrArg (fun p => p.2.2) hd
    simpa [bufDims, hA1] using this
  rw [List.map_const', List.map_const', List.map_const', h1, h2, h3]
  exact diffEmit_self _ _ _

/-! ### Helpers for the resize claim -/

theorem resizeList_length {α : Type} (l : List α) (n : ℕ) (d : α) :
    (resizeList l n d).length = n := by
  simp only [resizeList, List.length_append, List.length_take, List.length_replicate]
  omega

/-- Every value visited by the loop `for (float x = lo; x <= hi; x += step)`
lies in `[lo, hi]`. -/
theorem sampleCoords_bounds (lo hi step x : ℚ) (hstep : 0 < step)
    (hx : x ∈ sampleCoords lo hi step) : lo ≤ x ∧ x ≤ hi := by
  rw [sampleCoords, List.mem_map] at hx
  obtain ⟨t, ht, rfl⟩ := hx
  rw [List.mem_range] at ht
  have ht' : t < sampleCount lo hi step := ht
  clear ht
  by_cases hc : 0 < step ∧ lo ≤ hi
  · rw [sampleCount, if_pos hc] at ht'
    have htle : t ≤ (⌊(hi - lo) / step⌋).toNat := Nat.lt_succ_iff.mp ht'
    have hfl : 0 ≤ ⌊(hi - lo) / step⌋ :=
      Int.floor_nonneg.mpr (div_nonneg (by linarith [hc.2]) (le_of_lt hstep))
    have hti : (t : ℤ) ≤ ⌊(hi - lo) / step⌋ := by
      calc (t : ℤ) ≤ ((⌊(hi - lo) / step⌋).toNat : ℤ) := by exact_mod_cast htle
        _ = ⌊(hi - lo) / step⌋ := Int.toNat_of_nonneg hfl
    have htq : (t : ℚ) ≤ (hi - lo) / step := by
      have := Int.le_floor.mp hti
      exact_mod_cast this
    have hstep' : (t : ℚ) * step ≤ hi - lo := by
      rw [div_eq_mul_inv] at htq
      calc (t : ℚ) * step ≤ ((hi - lo) * step⁻¹) * step := by
            exact mul_le_mul_of_nonneg_right htq (le_of_lt hstep)
        _ = hi - lo := by
            field_simp
    constructor
    · have : (0 : ℚ) ≤ (t : ℚ) * step := by positivity
      linarith
    · linarith
  · rw [sampleCount, if_neg hc] at ht'
    exact absurd ht' (Nat.not_lt_zero t)

/-- For the post-resize 4×4 configuration (`K1 = 60/7`, identity rotation),
every cube surface point projects to a linear cell index of at least 5: the
perspective offsets stay strictly inside one cell of the grid centre (2, 2). -/
theorem cellIndex_center_bound (i j k : ℚ)
    (hi1 : -(1:ℚ)/2 ≤ i) (hi2 : i ≤ 1/2) (hj1 : -(1:ℚ)/2 ≤ j) (hj2 : j ≤ 1/2)
    (hk1 : -(1:ℚ)/2 ≤ k) (hk2 : k ≤ 1/2) :
    5 ≤ cellIndex ⟨4, 4, 60/7, 3/4⟩ ⟨0, 1, 0, 1, 0, 1⟩ i j k := by
  have hzpos : (0:ℚ) < k + 10 := by linarith
  have hozpos : (0:ℚ) < 1 / (k + 10) := by positivity
  have hozle : 1 / (k + 10) ≤ 2 / 19 := by
    rw [div_le_div_iff hzpos (by norm_num)]
    linarith
  have hbnd : ∀ w : ℚ, -(1:ℚ)/2 ≤ w → w ≤ 1/2 →
      |(60/7 : ℚ) * (1/(k+10)) * w| ≤ 60/133 := by
    intro w hw1 hw2
    rw [abs_mul, abs_mul, abs_of_nonneg (by norm_num : (0:ℚ) ≤ 60/7), abs_of_pos hozpos]
    have hwb : |w| ≤ 1/2 := abs_le.mpr ⟨by linarith, hw2⟩
    calc (60/7 : ℚ) * (1/(k+10)) * |w| ≤ (60/7) * (2/19) * (1/2) := by
          apply mul_le_mul _ hwb (abs_nonneg w) (by positivity)
          exact mul_le_mul le_rfl hozle (le_of_lt hozpos) (by norm_num)
      _ = 60/133 := by norm_num
  have htr : ∀ t : ℚ, |t| ≤ 60/133 → (1:ℤ) ≤ ratTrunc (2 + t) := by
    intro t ht
    obtain ⟨ht1, ht2⟩ := abs_le.mp ht
    rw [ratTrunc, if_pos (by linarith)]
    exact Int.le_floor.mpr (by push_cast; linarith)
  have hx : screenXp ⟨4, 4, 60/7, 3/4⟩ ⟨0, 1, 0, 1, 0, 1⟩ i j k
      = ratTrunc (2 + (60/7) * (1/(k+10)) * j) := by
    rw [screenXp, oozOf, rotatePoint]
    norm_num [K2, show Int.tdiv (4:ℤ) 2 = 2 from rfl]
  have hy : screenYp ⟨4, 4, 60/7, 3/4⟩ ⟨0, 1, 0, 1, 0, 1⟩ i j k
      = ratTrunc (2 + (60/7) * (1/(k+10)) * (-i)) := by
    rw [screenYp, oozOf, rotatePoint]
    norm_num [K2, show Int.tdiv (4:ℤ) 2 = 2 from rfl]
    ring_nf
  have hxp1 : (1:ℤ) ≤ screenXp ⟨4, 4, 60/7, 3/4⟩ ⟨0, 1, 0, 1, 0, 1⟩ i j k := by
    rw [hx]
    exact htr _ (hbnd j hj1 hj2)
  have hyp1 : (1:ℤ) ≤ screenYp ⟨4, 4, 60/7, 3/4⟩ ⟨0, 1, 0, 1, 0, 1⟩ i j k := by
    rw [hy]
    exact htr _ (hbnd (-i) (by linarith) (by linarith))
  rw [cellIndex]
  have hW : (⟨4, 4, 60/7, 3/4⟩ : Config).WIDTH = 4 := rfl
  rw [hW]
  linarith

/-- In the post-resize 4×4 scene, a single `updateBuffers` call on a cube
point never touches cell 0. -/
theorem updateBuffers_cell0_pres (i j k : ℚ) (st : Buffers) (col : Color) (lum : ℚ)
    (hi1 : -(1:ℚ)/2 ≤ i) (hi2 : i ≤ 1/2) (hj1 : -(1:ℚ)/2 ≤ j) (hj2 : j ≤ 1/2)
    (hk1 : -(1:ℚ)/2 ≤ k) (hk2 : k ≤ 1/2)
    (hst : st.buffer.getD 0 ' ' = ' ' ∧ st.cbuffer.getD 0 RESET = RESET) :
    (updateBuffers ⟨4, 4, 60/7, 3/4⟩ i j k ⟨0, 1, 0, 1, 0, 1⟩ st col lum).buffer.getD 0 ' ' = ' '
    ∧ (updateBuffers ⟨4, 4, 60/7, 3/4⟩ i j k ⟨0, 1, 0, 1, 0, 1⟩ st col lum).cbuffer.getD 0 RESET = RESET := by
  have hb := cellIndex_center_bound i j k hi1 hi2 hj1 hj2 hk1 hk2
  have hne : cellIndex ⟨4, 4, 60/7, 3/4⟩ ⟨0, 1, 0, 1, 0, 1⟩ i j k ≠ ((0 : ℕ) : ℤ) := by
    intro hEq
    rw [hEq] at hb
    norm_num at hb
  obtain ⟨h1, h2, _⟩ := updateBuffers_getD_preserve ⟨4, 4, 60/7, 3/4⟩ ⟨0, 1, 0, 1, 0, 1⟩
    i j k st col lum 0 ' ' RESET 0 hne
  exact ⟨h1.trans hst.1, h2.trans hst.2⟩

theorem renderCubeAxis_A_cell0 (rsqrt : ℚ → ℚ) (light : Vector3f ℚ) (c1 c2 : Color)
    (st : Buffers) (hst : st.buffer.getD 0 ' ' = ' ' ∧ st.cbuffer.getD 0 RESET = RESET) :
    (renderCubeAxis_A rsqrt ⟨4, 4, 60/7, 3/4⟩ ⟨0, 1, 0, 1, 0, 1⟩ light st c1 c2).buffer.getD 0 ' ' = ' '
    ∧ (renderCubeAxis_A rsqrt ⟨4, 4, 60/7, 3/4⟩ ⟨0, 1, 0, 1, 0, 1⟩ light st c1 c2).cbuffer.getD 0 RESET = RESET := by
  simp only [renderCubeAxis_A]
  refine foldl_invariant
    (P := fun s : Buffers => s.buffer.getD 0 ' ' = ' ' ∧ s.cbuffer.getD 0 RESET = RESET) _ _ ?_ _ hst
  intro s i hi hs
  refine foldl_invariant
    (P := fun s : Buffers => s.buffer.getD 0 ' ' = ' ' ∧ s.cbuffer.getD 0 RESET = RESET) _ _ ?_ _ hs
  intro s' j hj hs'
  obtain ⟨hia, hib⟩ := sampleCoords_bounds _ _ _ _ (by norm_num : (0:ℚ) < (3:ℚ)/4) hi
  obtain ⟨hja, hjb⟩ := sampleCoords_bounds _ _ _ _ (by norm_num : (0:ℚ) < (3:ℚ)/4) hj
  have hi1 : -(1:ℚ)/2 ≤ i := by norm_num [CUBE_SIZE] at hia; linarith
  have hi2 : i ≤ 1/2 := by norm_num [CUBE_SIZE] at hib; linarith
  have hj1 : -(1:ℚ)/2 ≤ j := by norm_num [CUBE_SIZE] at hja; linarith
  have hj2 : j ≤ 1/2 := by norm_num [CUBE_SIZE] at hjb; linarith
  exact updateBuffers_cell0_pres i j (-(CUBE_SIZE / 2)) _ _ _ hi1 hi2 hj1 hj2
    (by norm_num [CUBE_SIZE]) (by norm_num [CUBE_SIZE])
    (updateBuffers_cell0_pres i j (CUBE_SIZE / 2) _ _ _ hi1 hi2 hj1 hj2
      (by norm_num [CUBE_SIZE]) (by norm_num [CUBE_SIZE]) hs')

theorem renderCubeAxis_B_cell0 (rsqrt : ℚ → ℚ) (light : Vector3f ℚ) (c1 c2 : Color)
    (st : Buffers) (hst : st.buffer.getD 0 ' ' = ' ' ∧ st.cbuffer.getD 0 RESET = RESET) :
    (renderCubeAxis_B rsqrt ⟨4, 4, 60/7, 3/4⟩ ⟨0, 1, 0, 1, 0, 1⟩ light st c1 c2).buffer.getD 0 ' ' = ' '
    ∧ (renderCubeAxis_B rsqrt ⟨4, 4, 60/7, 3/4⟩ ⟨0, 1, 0, 1, 0, 1⟩ light st c1 c2).cbuffer.getD 0 RESET = RESET := by
  simp only [renderCubeAxis_B]
  refine foldl_invariant
    (P := fun s : Buffers => s.buffer.getD 0 ' ' = ' ' ∧ s.cbuffer.getD 0 RESET = RESET) _ _ ?_ _ hst
  intro s j hj hs
  refine foldl_invariant
    (P := fun s : Buffers => s.buffer.getD 0 ' ' = ' ' ∧ s.cbuffer.getD 0 RESET = RESET) _ _ ?_ _ hs
  intro s' k hk hs'
  obtain ⟨hja, hjb⟩ := sampleCoords_bounds _ _ _ _ (by norm_num : (0:ℚ) < (3:ℚ)/4) hj
  obtain ⟨hka, hkb⟩ := sampleCoords_bounds _ _ _ _ (by norm_num : (0:ℚ) < (3:ℚ)/4) hk
  have hj1 : -(1:ℚ)/2 ≤ j := by norm_num [CUBE_SIZE] at hja; linarith
  have hj2 : j ≤ 1/2 := by norm_num [CUBE_SIZE] at hjb; linarith
  have hk1 : -(1:ℚ)/2 ≤ k := by norm_num [CUBE_SIZE] at hka; linarith
  have hk2 : k ≤ 1/2 := by norm_num [CUBE_SIZE] at hkb; linarith
  exact updateBuffers_cell0_pres (-(CUBE_SIZE / 2)) j k _ _ _
    (by norm_num [CUBE_SIZE]) (by norm_num [CUBE_SIZE]) hj1 hj2 hk1 hk2
    (updateBuffers_cell0_pres (CUBE_SIZE / 2) j k _ _ _
      (by norm_num [CUBE_SIZE]) (by norm_num [CUBE_SIZE]) hj1 hj2 hk1 hk2 hs')

theorem renderCubeAxis_C_cell0 (rsqrt : ℚ → ℚ) (light : Vector3f ℚ) (c1 c2 : Color)
    (st : Buffers) (hst : st.buffer.getD 0 ' ' = ' ' ∧ st.cbuffer.getD 0 RESET = RESET) :
    (renderCubeAxis_C rsqrt ⟨4, 4, 60/7, 3/4⟩ ⟨0, 1, 0, 1, 0, 1⟩ light st c1 c2).buffer.getD 0 ' ' = ' '
    ∧ (renderCubeAxis_C rsqrt ⟨4, 4, 60/7, 3/4⟩ ⟨0, 1, 0, 1, 0, 1⟩ light st c1 c2).cbuffer.getD 0 RESET = RESET := by
  simp only [renderCubeAxis_C]
  refine foldl_invariant
    (P := fun s : Buffers => s.buffer.getD 0 ' ' = ' ' ∧ s.cbuffer.getD 0 RESET = RESET) _ _ ?_ _ hst
  intro s k hk hs
  refine foldl_invariant
    (P := fun s : Buffers => s.buffer.getD 0 ' ' = ' ' ∧ s.cbuffer.getD 0 RESET = RESET) _ _ ?_ _ hs
  intro s' i hi hs'
  obtain ⟨hka, hkb⟩ := sampleCoords_bounds _ _ _ _ (by norm_num : (0:ℚ) < (3:ℚ)/4) hk
  obtain ⟨hia, hib⟩ := sampleCoords_bounds _ _ _ _ (by norm_num : (0:ℚ) < (3:ℚ)/4) hi
  have hk1 : -(1:ℚ)/2 ≤ k := by norm_num [CUBE_SIZE] at hka; linarith
  have hk2 : k ≤ 1/2 := by norm_num [CUBE_SIZE] at hkb; linarith
  have hi1 : -(1:ℚ)/2 ≤ i := by norm_num [CUBE_SIZE] at hia; linarith
  have hi2 : i ≤ 1/2 := by norm_num [CUBE_SIZE] at hib; linarith
  exact updateBuffers_cell0_pres i (-(CUBE_SIZE / 2)) k _ _ _ hi1 hi2
    (by norm_num [CUBE_SIZE]) (by norm_num [CUBE_SIZE]) hk1 hk2
    (updateBuffers_cell0_pres i (CUBE_SIZE / 2) k _ _ _ hi1 hi2
      (by norm_num [CUBE_SIZE]) (by norm_num [CUBE_SIZE]) hk1 hk2 hs')

/-- Counterexample for C8 (as stated): after `updateDim` installs 4×4
dimensions (with the float `sqrt(3)` modelled as 7/4, giving `K1 = 60/7`),
rendering the next frame at the identity rotation does NOT address every cell
of the new grid in the diff pass: cell 0 stays blank — blank cells match the
cleared previous-frame snapshot and are skipped, so not "every cell is
considered changed". -/
theorem resize_reinit_counterexample :
    ¬ (∀ n : ℕ, n < 16 →
      ∃ c ch, (⟨n / 4 + 1, n % 4 + 1, c, ch⟩ : EmitCell) ∈
        (renderFrame (fun q => if q = 3 then 7/4 else 1)
          (updateDim (fun q => if q = 3 then 7/4 else 1) 4 4
            ⟨⟨50, 25, 0, 3/50⟩, ⟨[], [], [], [], []⟩⟩).cfg
          ⟨0, 1, 0, 1, 0, 1⟩ ⟨0, 7/10, -7/10⟩
          (updateDim (fun q => if q = 3 then 7/4 else 1) 4 4
            ⟨⟨50, 25, 0, 3/50⟩, ⟨[], [], [], [], []⟩⟩).fs).2) := by
  intro hall
  have hg : updateDim (fun q => if q = 3 then 7/4 else 1) 4 4
      ⟨⟨50, 25, 0, 3/50⟩, ⟨[], [], [], [], []⟩⟩ =
      ⟨⟨4, 4, 60/7, 3/4⟩, ⟨List.replicate 16 ' ', List.replicate 16 ' ',
        List.replicate 16 RESET, List.replicate 16 RESET, List.replicate 16 0⟩⟩ := by
    rw [updateDim, if_pos (by norm_num : (4:ℤ) ≠ 0 ∧ (4:ℤ) ≠ 0)]
    norm_num [computeK1, K2, CUBE_SIZE, clearBuffers, resizeBuffers, resizeList,
      List.map_const', List.length_replicate, show Int.toNat 16 = 16 from rfl]
  rw [hg] at hall
  obtain ⟨c, ch, hmem⟩ := hall 0 (by norm_num)
  simp only [renderFrame, List.map_replicate] at hmem
  rw [diffEmit] at hmem
  obtain ⟨m, hmrange, hfm⟩ := List.mem_filterMap.mp hmem
  by_cases hcond : (renderCubeAxis_C (fun q => if q = 3 then 7/4 else 1) ⟨4, 4, 60/7, 3/4⟩
        ⟨0, 1, 0, 1, 0, 1⟩ ⟨0, 7/10, -7/10⟩
        (renderCubeAxis_B (fun q => if q = 3 then 7/4 else 1) ⟨4, 4, 60/7, 3/4⟩
          ⟨0, 1, 0, 1, 0, 1⟩ ⟨0, 7/10, -7/10⟩
          (renderCubeAxis_A (fun q => if q = 3 then 7/4 else 1) ⟨4, 4, 60/7, 3/4⟩
            ⟨0, 1, 0, 1, 0, 1⟩ ⟨0, 7/10, -7/10⟩
            ⟨List.replicate 16 ' ', List.replicate 16 RESET, List.replicate 16 0⟩
            YELLOW WHITE) GREEN BLUE) BOLD_RED RED).buffer.getD m ' '
        = (List.replicate 16 ' ').getD m ' '
      ∧ (renderCubeAxis_C (fun q => if q = 3 then 7/4 else 1) ⟨4, 4, 60/7, 3/4⟩
        ⟨0, 1, 0, 1, 0, 1⟩ ⟨0, 7/10, -7/10⟩
        (renderCubeAxis_B (fun q => if q = 3 then 7/4 else 1) ⟨4, 4, 60/7, 3/4⟩
          ⟨0, 1, 0, 1, 0, 1⟩ ⟨0, 7/10, -7/10⟩
          (renderCubeAxis_A (fun q => if q = 3 then 7/4 else 1) ⟨4, 4, 60/7, 3/4⟩
            ⟨0, 1, 0, 1, 0, 1⟩ ⟨0, 7/10, -7/10⟩
            ⟨List.replicate 16 ' ', List.replicate 16 RESET, List.replicate 16 0⟩
            YELLOW WHITE) GREEN BLUE) BOLD_RED RED).cbuffer.getD m RESET
        = (List.replicate 16 RESET).getD m RESET
  · rw [if_pos hcond] at hfm
    exact absurd hfm (by simp)
  · rw [if_neg hcond] at hfm
    have hinj := Option.some.inj hfm
    have hrow : m / (4:ℤ).toNat + 1 = 0 / 4 + 1 := congrArg EmitCell.row hinj
    have hcol : m % (4:ℤ).toNat + 1 = 0 % 4 + 1 := congrArg EmitCell.col hinj
    rw [show (4:ℤ).toNat = 4 from rfl] at hrow hcol
    have hm0 : m = 0 := by omega
    subst hm0
    apply hcond
    have hbase : (List.replicate 16 ' ').getD 0 ' ' = ' '
        ∧ (List.replicate 16 RESET).getD 0 RESET = RESET :=
      ⟨getD_replicate 16 0 ' ' ' ' (by norm_num), getD_replicate 16 0 RESET RESET (by norm_num)⟩
    have hA := renderCubeAxis_A_cell0 (fun q => if q = 3 then 7/4 else 1)
      ⟨0, 7/10, -7/10⟩ YELLOW WHITE
      ⟨List.replicate 16 ' ', List.replicate 16 RESET, List.replicate 16 0⟩ hbase
    have hB := renderCubeAxis_B_cell0 (fun q => if q = 3 then 7/4 else 1)
      ⟨0, 7/10, -7/10⟩ GREEN BLUE _ hA
    have hC := renderCubeAxis_C_cell0 (fun q => if q = 3 then 7/4 else 1)
      ⟨0, 7/10, -7/10⟩ BOLD_RED RED _ hB
    exact ⟨hC.1.trans hbase.1.symm, hC.2.trans hbase.2.symm⟩

/-- C8 (amended): after a dimension change to (W', H') with both nonzero, all
five frame buffers have length W'×H', K1 and SPACING are recomputed from the
new WIDTH, and the glyph/colour previous-frame snapshots are reset to the
blank/reset state; consequently the next diff pass emits exactly the cells
whose newly rendered content differs from the cleared state (the screen was
erased, so this is a full redraw of the visible content) — cells that remain
blank match the snapshot and are skipped rather than being "considered
changed". -/
theorem resize_reinit_amended (rsqrt : ℚ → ℚ) (g : GlobalState) (w h : ℤ)
    (hw : 0 < w) (hh : 0 < h) :
    (updateDim rsqrt w h g).cfg.WIDTH = w
    ∧ (updateDim rsqrt w h g).cfg.HEIGHT = h
    ∧ (updateDim rsqrt w h g).cfg.K1 = computeK1 (rsqrt 3) w
    ∧ (updateDim rsqrt w h g).cfg.SPACING = 3 / (w : ℚ)
    ∧ (updateDim rsqrt w h g).fs.buffer = List.replicate (w * h).toNat ' '
    ∧ (updateDim rsqrt w h g).fs.buffer_prev = List.replicate (w * h).toNat ' '
    ∧ (updateDim rsqrt w h g).fs.cbuffer = List.replicate (w * h).toNat RESET
    ∧ (updateDim rsqrt w h g).fs.cbuffer_prev = List.replicate (w * h).toNat RESET
    ∧ (updateDim rsqrt w h g).fs.zbuffer = List.replicate (w * h).toNat 0
    ∧ (∀ (tv : TrigCache) (light : Vector3f ℚ) (n : ℕ), n < (w * h).toNat →
        ((∃ c ch, (⟨n / w.toNat + 1, n % w.toNat + 1, c, ch⟩ : EmitCell) ∈
            (renderFrame rsqrt (updateDim rsqrt w h g).cfg tv light (updateDim rsqrt w h g).fs).2)
          ↔ ¬((renderFrame rsqrt (updateDim rsqrt w h g).cfg tv light (updateDim rsqrt w h g).fs).1.buffer.getD n ' ' = ' '
              ∧ (renderFrame rsqrt (updateDim rsqrt w h g).cfg tv light (updateDim rsqrt w h g).fs).1.cbuffer.getD n RESET = RESET))) := by
  have hcond : w ≠ 0 ∧ h ≠ 0 := ⟨ne_of_gt hw, ne_of_gt hh⟩
  have hgcfg : (updateDim rsqrt w h g).cfg
      = ⟨w, h, computeK1 (rsqrt 3) w, 3 / (w : ℚ)⟩ := by
    rw [updateDim, if_pos hcond]
  have hgfs : (updateDim rsqrt w h g).fs
      = ⟨List.replicate (w * h).toNat ' ', List.replicate (w * h).toNat ' ',
          List.replicate (w * h).toNat RESET, List.replicate (w * h).toNat RESET,
          List.replicate (w * h).toNat 0⟩ := by
    rw [updateDim, if_pos hcond]
    show clearBuffers (resizeBuffers w h g.fs) = _
    rw [clearBuffers, resizeBuffers]
    simp only [List.map_const', resizeList_length]
  refine ⟨by rw [hgcfg], by rw [hgcfg], by rw [hgcfg], by rw [hgcfg],
    by rw [hgfs], by rw [hgfs], by rw [hgfs], by rw [hgfs], by rw [hgfs], ?_⟩
  intro tv light n hn
  rw [hgcfg, hgfs]
  simp only [renderFrame, List.map_replicate]
  set P : Buffers :=
    renderCubeAxis_C rsqrt ⟨w, h, computeK1 (rsqrt 3) w, 3 / (w : ℚ)⟩ tv light
      (renderCubeAxis_B rsqrt ⟨w, h, computeK1 (rsqrt 3) w, 3 / (w : ℚ)⟩ tv light
        (renderCubeAxis_A rsqrt ⟨w, h, computeK1 (rsqrt 3) w, 3 / (w : ℚ)⟩ tv light
          ⟨List.replicate (w * h).toNat ' ', List.replicate (w * h).toNat RESET,
            List.replicate (w * h).toNat 0⟩ YELLOW WHITE) GREEN BLUE) BOLD_RED RED
    with hP
  have hdims : bufDims P = bufDims
      ⟨List.replicate (w * h).toNat ' ', List.replicate (w * h).toNat RESET,
        List.replicate (w * h).toNat 0⟩ := by
    rw [hP, renderCubeAxis_C_dims, renderCubeAxis_B_dims, renderCubeAxis_A_dims]
  have hlen : P.buffer.length = (w * h).toNat := by
    have := congrArg Prod.fst hdims
    simpa [bufDims] using this
  have base := mem_diffEmit_iff w P.buffer (List.replicate (w * h).toNat ' ')
    P.cbuffer (List.replicate (w * h).toNat RESET) n (hlen ▸ hn)
  rw [getD_replicate _ _ _ _ hn, getD_replicate _ _ _ _ hn] at base
  exact base

/-- Witness for the amended C8: a resize to 2×3 yields buffers of length 6,
`SPACING = 3/2` and `K1` recomputed through `computeK1`. -/
theorem resize_reinit_amended_witness :
    (updateDim (fun _ => 1) 2 3 ⟨⟨50, 25, 0, 3/50⟩, ⟨[], [], [], [], []⟩⟩).fs.buffer
      = List.replicate 6 ' '
    ∧ (updateDim (fun _ => 1) 2 3 ⟨⟨50, 25, 0, 3/50⟩, ⟨[], [], [], [], []⟩⟩).cfg.SPACING = 3 / 2
    ∧ (updateDim (fun _ => 1) 2 3 ⟨⟨50, 25, 0, 3/50⟩, ⟨[], [], [], [], []⟩⟩).cfg.K1
      = computeK1 1 2 := by
  have h := resize_reinit_amended (fun _ => 1) ⟨⟨50, 25, 0, 3/50⟩, ⟨[], [], [], [], []⟩⟩ 2 3
    (by norm_num) (by norm_num)
  refine ⟨?_, ?_, ?_⟩
  · have hb := h.2.2.2.2.1
    rw [show ((2 * 3 : ℤ)).toNat = 6 from rfl] at hb
    exact hb
  · have hs := h.2.2.2.1
    rw [hs]
    norm_num
  · exact h.2.2.1
